import Mathlib

/-!
Shallow embedding of the appointment-booking dialogue manager
(`src/Code/src/types.ts`): the vocabulary (`grammar`) with its resolver
functions, the dialogue context (`DMContext`), and the xstate machine
`dmMachine` as an explicit step function over states, contexts and events.

JavaScript-specific behaviour is embedded explicitly:
* `toLowerCase` models `String.prototype.toLowerCase` (the source only ever
  compares against ASCII keys, so ASCII case-folding is the relevant part);
* option-valued fields model `T | null | undefined` context fields;
* truthiness tests (`x ? a : b`, `!!x`) and loose/strict comparisons
  (`x != null`, `x !== undefined`, `x === true`) are embedded by dedicated
  functions named after the JS expression they translate;
* a step that evaluates `lastResult![0]` or `event.value[0]` against a
  missing value is a crash, modelled by `Option.none` as the step result.
-/

/-- ASCII case folding of one character, as `toLowerCase` acts on the
ASCII range: codepoints 65-90 map to 97-122, everything else is kept. -/
def asciiToLower (c : Char) : Char :=
  if 65 ≤ c.toNat ∧ c.toNat ≤ 90 then Char.ofNat (c.toNat + 32) else c

/-- Embedding of JavaScript `String.prototype.toLowerCase` (character-wise
case folding; the grammar keys are all ASCII). -/
def toLowerCase (s : String) : String := ⟨s.data.map asciiToLower⟩

/-- One recognition hypothesis (`Hypothesis` from speechstate); only the
`utterance` field is read by the dialogue logic. -/
structure Hypothesis where
  utterance : String
deriving DecidableEq, Repr

/-- An entry of the `grammar` object: all four fields are optional
(`person?`, `day?`, `time?`, `yesno?`). -/
structure GrammarEntry where
  person : Option String := none
  day : Option String := none
  time : Option String := none
  yesno : Option Bool := none
deriving DecidableEq, Repr

/-- The `grammar` lookup table: `grammar k` is `some e` when the lowercase
key `k` is bound to entry `e`, and `none` when `k` is not a key
(JS: `grammar[k]` is `undefined`). -/
def grammar : String → Option GrammarEntry
  | "vlad" => some { person := some "Vladislav Maraev" }
  | "aya" => some { person := some "Nayat Astaiza Soriano" }
  | "victoria" => some { person := some "Victoria Daniilidou" }
  | "matteo" => some { person := some "Matteo Ripamonti" }
  | "lou" => some { person := some "Lou Reed" }
  | "david" => some { person := some "David Bowie" }
  | "monday" => some { day := some "Monday" }
  | "tuesday" => some { day := some "Tuesday" }
  | "wednesday" => some { day := some "Wednesday" }
  | "thursday" => some { day := some "Thursday" }
  | "friday" => some { day := some "Friday" }
  | "saturday" => some { day := some "Saturday" }
  | "sunday" => some { day := some "Sunday" }
  | "8" => some { time := some "8:00" }
  | "9" => some { time := some "9:00" }
  | "10" => some { time := some "10:00" }
  | "11" => some { time := some "11:00" }
  | "12" => some { time := some "12:00" }
  | "13" => some { time := some "13:00" }
  | "14" => some { time := some "14:00" }
  | "15" => some { time := some "15:00" }
  | "16" => some { time := some "16:00" }
  | "17" => some { time := some "17:00" }
  | "18" => some { time := some "18:00" }
  | "19" => some { time := some "19:00" }
  | "20" => some { time := some "20:00" }
  | "yes" => some { yesno := some true }
  | "yep" => some { yesno := some true }
  | "of course" => some { yesno := some true }
  | "sure" => some { yesno := some true }
  | "no" => some { yesno := some false }
  | "nope" => some { yesno := some false }
  | "no way" => some { yesno := some false }
  | "never" => some { yesno := some false }
  | _ => none

/-- Source `isInGrammar`: `utterance.toLowerCase() in grammar`. -/
def isInGrammar (utterance : String) : Bool :=
  (grammar (toLowerCase utterance)).isSome

/-- Source `getPerson`: `(grammar[utterance.toLowerCase()] || {}).person`. -/
def getPerson (utterance : String) : Option String :=
  ((grammar (toLowerCase utterance)).getD {}).person

/-- Source `getNumber`: `(grammar[utterance.toLowerCase()] || {}).day`. -/
def getNumber (utterance : String) : Option String :=
  ((grammar (toLowerCase utterance)).getD {}).day

/-- Source `getFullDay`: `(grammar[utterance.toLowerCase()] || {}).yesno`. -/
def getFullDay (utterance : String) : Option Bool :=
  ((grammar (toLowerCase utterance)).getD {}).yesno

/-- Source `getTime`: `(grammar[utterance.toLowerCase()] || {}).time`. -/
def getTime (utterance : String) : Option String :=
  ((grammar (toLowerCase utterance)).getD {}).time

/-- Source `getConfirm`: `(grammar[utterance.toLowerCase()] || {}).yesno`. -/
def getConfirm (utterance : String) : Option Bool :=
  ((grammar (toLowerCase utterance)).getD {}).yesno

/-- The machine context `DMContext` (the external actor reference
`spstRef` carries no dialogue data and is omitted). -/
structure DMContext where
  lastResult : Option (List Hypothesis)
  person : Option String
  day : Option String
  yesno : Option Bool
  time : Option String
deriving DecidableEq, Repr

/-- The states of `dmMachine`, exactly the keys of its `states` object
(`"new state 1"` is the empty, handler-less state of that name). -/
inductive DMState
  | Prepare
  | WaitToStart
  | Greeting
  | AskPerson
  | ListenPerson
  | CheckPerson
  | AskDay
  | ListenDay
  | CheckDay
  | AskFullDay
  | ListenFullDay
  | CheckFullDay
  | AskTime
  | ListenTime
  | CheckTime
  | ConfirmAppointment
  | ListenConfirm
  | CheckConfirmation
  | Done
  | NewState1
deriving DecidableEq, Repr

/-- The events the machine reacts to (`DMEvents`):
speechstate replies plus the UI `CLICK`. `RECOGNISED` carries the
hypothesis array `event.value`. -/
inductive DMEvent
  | ASRTTS_READY
  | CLICK
  | SPEAK_COMPLETE
  | LISTEN_COMPLETE
  | ASR_NOINPUT
  | RECOGNISED (value : List Hypothesis)
deriving DecidableEq, Repr

/-- JS truthiness of a `string | undefined` value (`x ? a : b`, `!!x`):
`undefined` and the empty string are falsy, every other string is truthy. -/
def jsTruthyStr : Option String → Bool
  | none => false
  | some s => s != ""

/-- JS truthiness of a `boolean | null` value (`!!x`): only `true` is
truthy. -/
def jsTruthyOptBool : Option Bool → Bool
  | some true => true
  | _ => false

/-- JS loose inequality `b != null` applied to a boolean value (the source
guards `!!context.day != null`, `!!context.time != null` and
`!!context.yesno != null` compare the boolean `!!…` against `null`):
a boolean is neither `null` nor `undefined`, so the comparison is always
`true`. -/
def jsBoolNeNull (_ : Bool) : Bool := true

/-- JS strict inequality `context.yesno !== undefined` (guard of
`ListenFullDay`): the `yesno` field ranges over booleans and `null`
(it starts as `null` and is only ever assigned booleans or `null`),
never `undefined`, so the comparison is always `true`. -/
def jsYesnoNeUndefined (_ : Option Bool) : Bool := true

/-- Indexing `lastResult![0]`: `some h` when the list is present and
non-empty, `none` when the dereference would crash (`lastResult` is
`null`, or the hypothesis array is empty). -/
def jsIndex0 : Option (List Hypothesis) → Option Hypothesis
  | some (h :: _) => some h
  | _ => none

/-- Interpolation `${x}` of a `string | null` value into a template
literal: `null` prints as the string `"null"`. -/
def jsStrOrNull : Option String → String
  | some s => s
  | none => "null"

/-- The `clearValues` action: `assign` of `null` to `lastResult`,
`person`, `day`, `time` and `yesno`; also the initial context. -/
def clearValues : DMContext :=
  { lastResult := none, person := none, day := none, yesno := none,
    time := none }

/-- One step of `dmMachine`: in state `s` with context `ctx`, handle event
`e`. Returns `some (s2, ctx2)` for the resulting state and context
(an event with no handler in `s` is ignored: same state, same context),
and `none` when evaluating the handler crashes on a missing-value
dereference (`event.value[0]` on an empty array, `lastResult![0]` on a
`null` or empty `lastResult`). Guard and action translations:
* `ListenPerson`/`ListenDay`/`ListenTime` RECOGNISED: resolve the first
  hypothesis; a truthy result is assigned together with `lastResult`,
  otherwise only `lastResult` is assigned;
* `ListenFullDay` RECOGNISED assigns `yesno` when
  `getConfirm … !== undefined`; `ListenConfirm` RECOGNISED computes
  `getConfirm …` but assigns only `lastResult` in both branches;
* LISTEN_COMPLETE guards: `person != null` (`isSome`), but
  `!!day != null`, `yesno !== undefined`, `!!time != null` and
  `!!yesno != null` — see `jsBoolNeNull` and `jsYesnoNeUndefined`;
* ASR_NOINPUT clears `lastResult`; in `ListenFullDay` it also targets
  `AskFullDay`, in `ListenConfirm` it targets `ConfirmAppointment`;
* `CheckConfirmation` SPEAK_COMPLETE: each guard dereferences
  `lastResult![0]`; all three branches target `Greeting`, and the exit
  action `clearValues` resets the context. -/
def step : DMState → DMContext → DMEvent → Option (DMState × DMContext)
  | .Prepare, ctx, .ASRTTS_READY => some (.WaitToStart, ctx)
  | .WaitToStart, ctx, .CLICK => some (.Greeting, ctx)
  | .Greeting, ctx, .SPEAK_COMPLETE => some (.AskPerson, ctx)
  | .AskPerson, ctx, .SPEAK_COMPLETE => some (.ListenPerson, ctx)
  | .ListenPerson, ctx, .RECOGNISED v =>
      match v.head? with
      | none => none
      | some h =>
          let person := getPerson h.utterance
          if jsTruthyStr person then
            some (.ListenPerson,
              { ctx with person := person, lastResult := some v })
          else
            some (.ListenPerson, { ctx with lastResult := some v })
  | .ListenPerson, ctx, .LISTEN_COMPLETE =>
      if ctx.person.isSome then some (.CheckPerson, ctx)
      else some (.AskPerson, ctx)
  | .ListenPerson, ctx, .ASR_NOINPUT =>
      some (.ListenPerson, { ctx with lastResult := none })
  | .CheckPerson, ctx, .SPEAK_COMPLETE =>
      if ctx.person.isSome then some (.AskDay, ctx)
      else some (.AskPerson, ctx)
  | .AskDay, ctx, .SPEAK_COMPLETE => some (.ListenDay, ctx)
  | .ListenDay, ctx, .RECOGNISED v =>
      match v.head? with
      | none => none
      | some h =>
          let day := getNumber h.utterance
          if jsTruthyStr day then
            some (.ListenDay, { ctx with day := day, lastResult := some v })
          else
            some (.ListenDay, { ctx with lastResult := some v })
  | .ListenDay, ctx, .LISTEN_COMPLETE =>
      if jsBoolNeNull (jsTruthyStr ctx.day) then some (.CheckDay, ctx)
      else some (.AskDay, ctx)
  | .ListenDay, ctx, .ASR_NOINPUT =>
      some (.ListenDay, { ctx with lastResult := none })
  | .CheckDay, ctx, .SPEAK_COMPLETE =>
      if jsTruthyStr ctx.day then some (.AskFullDay, ctx)
      else some (.AskDay, ctx)
  | .AskFullDay, ctx, .SPEAK_COMPLETE => some (.ListenFullDay, ctx)
  | .ListenFullDay, ctx, .RECOGNISED v =>
      match v.head? with
      | none => none
      | some h =>
          match getConfirm h.utterance with
          | some b =>
              some (.ListenFullDay,
                { ctx with yesno := some b, lastResult := some v })
          | none =>
              some (.ListenFullDay, { ctx with lastResult := some v })
  | .ListenFullDay, ctx, .LISTEN_COMPLETE =>
      if jsYesnoNeUndefined ctx.yesno then some (.CheckFullDay, ctx)
      else some (.AskFullDay, ctx)
  | .ListenFullDay, ctx, .ASR_NOINPUT =>
      some (.AskFullDay, { ctx with lastResult := none })
  | .CheckFullDay, ctx, .SPEAK_COMPLETE =>
      if ctx.yesno = some true then some (.ConfirmAppointment, ctx)
      else if ctx.yesno = some false then some (.AskTime, ctx)
      else some (.AskFullDay, ctx)
  | .AskTime, ctx, .SPEAK_COMPLETE => some (.ListenTime, ctx)
  | .ListenTime, ctx, .RECOGNISED v =>
      match v.head? with
      | none => none
      | some h =>
          let time := getTime h.utterance
          if jsTruthyStr time then
            some (.ListenTime, { ctx with time := time, lastResult := some v })
          else
            some (.ListenTime, { ctx with lastResult := some v })
  | .ListenTime, ctx, .LISTEN_COMPLETE =>
      if jsBoolNeNull (jsTruthyStr ctx.time) then some (.CheckTime, ctx)
      else some (.AskTime, ctx)
  | .ListenTime, ctx, .ASR_NOINPUT =>
      some (.ListenTime, { ctx with lastResult := none })
  | .CheckTime, ctx, .SPEAK_COMPLETE =>
      if jsTruthyStr ctx.time then some (.ConfirmAppointment, ctx)
      else some (.AskTime, ctx)
  | .ConfirmAppointment, ctx, .SPEAK_COMPLETE => some (.ListenConfirm, ctx)
  | .ListenConfirm, ctx, .RECOGNISED v =>
      match v.head? with
      | none => none
      | some h =>
          match getConfirm h.utterance with
          | some _ => some (.ListenConfirm, { ctx with lastResult := some v })
          | none => some (.ListenConfirm, { ctx with lastResult := some v })
  | .ListenConfirm, ctx, .LISTEN_COMPLETE =>
      if jsBoolNeNull (jsTruthyOptBool ctx.yesno) then
        some (.CheckConfirmation, ctx)
      else some (.ConfirmAppointment, ctx)
  | .ListenConfirm, ctx, .ASR_NOINPUT =>
      some (.ConfirmAppointment, { ctx with lastResult := none })
  | .CheckConfirmation, ctx, .SPEAK_COMPLETE =>
      match jsIndex0 ctx.lastResult with
      | none => none
      | some h =>
          if getConfirm h.utterance = some true then
            some (.Greeting, clearValues)
          else if getConfirm h.utterance = some false then
            some (.Greeting, clearValues)
          else some (.Greeting, clearValues)
  | .Done, ctx, .CLICK => some (.Greeting, ctx)
  | s, ctx, _ => some (s, ctx)

/-- The utterance the entry action of a state speaks, given the context on
entry: `some (some u)` when the state speaks `u`, `some none` for states
whose entry is a listen directive, `PREPARE`, or no action at all, and
`none` when the entry action crashes (`CheckConfirmation` dereferencing
`lastResult![0]`). -/
def entryUtterance : DMState → DMContext → Option (Option String)
  | .Greeting, _ => some (some "Hi, let\x27s create an appointment")
  | .AskPerson, _ => some (some "Who are you meeting with?")
  | .CheckPerson, ctx =>
      some (some (match ctx.person with
        | some p => "You will meet " ++ p ++ "."
        | none => "I didn\x27t understand the person\x27s name."))
  | .AskDay, _ => some (some "Which day do you want the meeting?")
  | .CheckDay, ctx =>
      some (some (if jsTruthyStr ctx.day then
          "The day will be " ++ jsStrOrNull ctx.day ++ "."
        else "I did\x27t understand the day"))
  | .AskFullDay, _ => some (some "Will it take the whole day?")
  | .CheckFullDay, ctx =>
      some (some (if ctx.yesno = some true then
          "Ok, you will take the whole day."
        else "Ok, the meeting will not be the whole day."))
  | .AskTime, _ => some (some "What time is your meeting?")
  | .CheckTime, ctx =>
      some (some (if ctx.time.isSome then
          "You will meet at " ++ jsStrOrNull ctx.time ++ "."
        else "I did not understand the time."))
  | .ConfirmAppointment, ctx =>
      some (some ("Do you want me to create an appointment with "
        ++ jsStrOrNull ctx.person ++ " on " ++ jsStrOrNull ctx.day ++ " "
        ++ (if ctx.yesno = some true then "for the whole day?"
            else "at " ++ jsStrOrNull ctx.time ++ "?")))
  | .CheckConfirmation, ctx =>
      match jsIndex0 ctx.lastResult with
      | none => none
      | some h =>
          match getConfirm h.utterance with
          | some true => some (some "Your appointment has been created!")
          | some false => some (some "Okay, let\x27s start over.")
          | none => some (some "I didn\x27t understand. Let\x27s start over.")
  | _, _ => some none

/-- Run the machine over a list of events; `none` as soon as a step
crashes. -/
def runSteps : DMState → DMContext → List DMEvent →
    Option (DMState × DMContext)
  | s, ctx, [] => some (s, ctx)
  | s, ctx, e :: es =>
      match step s ctx e with
      | none => none
      | some (s2, ctx2) => runSteps s2 ctx2 es

/-- The sequence of states visited while running the machine over a list
of events, starting state included; a crashing step truncates the trace. -/
def traceStates : DMState → DMContext → List DMEvent → List DMState
  | s, _, [] => [s]
  | s, ctx, e :: es =>
      match step s ctx e with
      | none => [s]
      | some (s2, ctx2) => s :: traceStates s2 ctx2 es

/-- The scripted event sequence of the full happy path: speech completions
interleaved with the recognitions "Vlad", "Monday", "no", "14", "yes",
each recognition followed by its listen-completion. -/
def happyEvents : List DMEvent :=
  [ .SPEAK_COMPLETE, .SPEAK_COMPLETE,
    .RECOGNISED [⟨"Vlad"⟩], .LISTEN_COMPLETE,
    .SPEAK_COMPLETE, .SPEAK_COMPLETE,
    .RECOGNISED [⟨"Monday"⟩], .LISTEN_COMPLETE,
    .SPEAK_COMPLETE, .SPEAK_COMPLETE,
    .RECOGNISED [⟨"no"⟩], .LISTEN_COMPLETE,
    .SPEAK_COMPLETE, .SPEAK_COMPLETE,
    .RECOGNISED [⟨"14"⟩], .LISTEN_COMPLETE,
    .SPEAK_COMPLETE, .SPEAK_COMPLETE,
    .RECOGNISED [⟨"yes"⟩], .LISTEN_COMPLETE ]

/-- The context the happy path has accumulated when it enters
`CheckConfirmation`. -/
def happyCtx : DMContext :=
  { lastResult := some [⟨"yes"⟩], person := some "Vladislav Maraev",
    day := some "Monday", yesno := some false, time := some "14:00" }

/-- A context whose whole-day flag is `true`. -/
def ctxYes : DMContext := { clearValues with yesno := some true }

/-- A context whose whole-day flag is `false` and whose time slot is
filled. -/
def ctxNoTime : DMContext :=
  { clearValues with yesno := some false, time := some "14:00" }

/-- A context holding a recognised "yes" as the last result. -/
def ctxConfirmYes : DMContext :=
  { clearValues with lastResult := some [⟨"yes"⟩] }

/-- The context after `ListenPerson` recognises "vlad" in the empty
context. -/
def vladCtx : DMContext :=
  { clearValues with person := some "Vladislav Maraev", lastResult := some [⟨"vlad"⟩] }

/-- One interaction turn as the turn-taking adapter produces it: adapter
readiness, a UI click, a speech completion, or a listen turn — which, per
the adapter's event contract, is exactly one of `RECOGNISED` or
`ASR_NOINPUT` followed by `LISTEN_COMPLETE`. -/
inductive TurnInput
  | ready
  | click
  | speakDone
  | heard (v : List Hypothesis)
  | noInput
deriving DecidableEq, Repr

/-- Feed one turn to the machine: `heard v` delivers `RECOGNISED v` then
`LISTEN_COMPLETE`; `noInput` delivers `ASR_NOINPUT` then
`LISTEN_COMPLETE`; the other turns deliver their single event. -/
def feedTurn (c : DMState × DMContext) : TurnInput →
    Option (DMState × DMContext)
  | .ready => step c.1 c.2 .ASRTTS_READY
  | .click => step c.1 c.2 .CLICK
  | .speakDone => step c.1 c.2 .SPEAK_COMPLETE
  | .heard v =>
      (step c.1 c.2 (.RECOGNISED v)).bind
        (fun c2 => step c2.1 c2.2 .LISTEN_COMPLETE)
  | .noInput =>
      (step c.1 c.2 .ASR_NOINPUT).bind
        (fun c2 => step c2.1 c2.2 .LISTEN_COMPLETE)

/-- Run the machine over a list of adapter turns. -/
def runTurns (c : DMState × DMContext) : List TurnInput →
    Option (DMState × DMContext)
  | [] => some c
  | t :: ts =>
      match feedTurn c t with
      | none => none
      | some c2 => runTurns c2 ts

/-- Well-formedness of one adapter turn: a recognition carries at least
one hypothesis (`RECOGNISED { hypotheses: [...] }` is non-empty). -/
def turnWF : TurnInput → Bool
  | .heard v => !v.isEmpty
  | _ => true

/-- Well-formedness of a whole adapter script. -/
def inputsWF (ts : List TurnInput) : Bool := ts.all turnWF

/-- A well-formed adapter script that drives the machine from `Prepare`
into `CheckConfirmation`. -/
def confirmScript : List TurnInput :=
  [ .ready, .click, .speakDone, .speakDone, .heard [⟨"Vlad"⟩],
    .speakDone, .speakDone, .heard [⟨"Monday"⟩],
    .speakDone, .speakDone, .heard [⟨"yes"⟩],
    .speakDone, .speakDone, .heard [⟨"yes"⟩] ]

/-- The context `confirmScript` has accumulated when it reaches
`CheckConfirmation`. -/
def confirmCtx : DMContext :=
  { lastResult := some [⟨"yes"⟩], person := some "Vladislav Maraev", day := some "Monday", yesno := some true, time := none }

lemma char_toNat_ofNat (n : Nat) (h : n.isValidChar) :
    (Char.ofNat n).toNat = n := by
  simp [Char.ofNat, h, Char.toNat, Char.ofNatAux, UInt32.toNat,
    UInt32.ofNatCore]

lemma asciiToLower_idem (c : Char) :
    asciiToLower (asciiToLower c) = asciiToLower c := by
  unfold asciiToLower
  by_cases h : 65 ≤ c.toNat ∧ c.toNat ≤ 90
  · have hv : (c.toNat + 32).isValidChar := by
      left
      omega
    rw [if_pos h, char_toNat_ofNat _ hv, if_neg (by omega)]
  · rw [if_neg h, if_neg h]

lemma toLowerCase_idem (s : String) :
    toLowerCase (toLowerCase s) = toLowerCase s := by
  simp only [toLowerCase, List.map_map]
  congr 1
  exact List.map_congr_left (fun c _ => asciiToLower_idem c)

/-- C9: every vocabulary resolver (`isInGrammar`, `getPerson`,
`getNumber`, `getFullDay`, `getTime`, `getConfirm`) is a pure function of
its argument and is case-insensitive: applying it to an utterance returns
the same result as applying it to the lower-cased utterance. -/
theorem resolver_case_insensitive (u : String) :
    isInGrammar u = isInGrammar (toLowerCase u) ∧
    getPerson u = getPerson (toLowerCase u) ∧
    getNumber u = getNumber (toLowerCase u) ∧
    getFullDay u = getFullDay (toLowerCase u) ∧
    getTime u = getTime (toLowerCase u) ∧
    getConfirm u = getConfirm (toLowerCase u) := by
  unfold isInGrammar getPerson getNumber getFullDay getTime getConfirm
  rw [toLowerCase_idem]
  exact ⟨rfl, rfl, rfl, rfl, rfl, rfl⟩

/-- C1: with every slot still absent, a listen-complete event in
`ListenDay`, `ListenFullDay`, `ListenTime` and `ListenConfirm`
nevertheless moves the machine to the corresponding Check state: the
guards `!!context.day != null`, `context.yesno !== undefined`,
`!!context.time != null` and `!!context.yesno != null` are always true,
so the documented reprompt branch back to the Ask state is dead code
(only `ListenPerson`, whose guard is `context.person != null`, reprompts
as specified). -/
theorem listen_complete_guards_vacuous :
    step .ListenDay clearValues .LISTEN_COMPLETE
        = some (.CheckDay, clearValues) ∧
    step .ListenFullDay clearValues .LISTEN_COMPLETE
        = some (.CheckFullDay, clearValues) ∧
    step .ListenTime clearValues .LISTEN_COMPLETE
        = some (.CheckTime, clearValues) ∧
    step .ListenConfirm clearValues .LISTEN_COMPLETE
        = some (.CheckConfirmation, clearValues) ∧
    step .ListenPerson clearValues .LISTEN_COMPLETE
        = some (.AskPerson, clearValues) ∧
    clearValues.day = none ∧ clearValues.yesno = none ∧
    clearValues.time = none ∧ clearValues.person = none := by
  decide

/-- C2 (counterexample): after recognising "banana" in `ListenPerson` and
receiving the listen-complete event, the machine is in `AskPerson`, not
in `CheckPerson` as the claim states. -/
theorem banana_reaches_askPerson_not_checkPerson :
    (runSteps .ListenPerson clearValues
        [.RECOGNISED [⟨"banana"⟩], .LISTEN_COMPLETE]).map Prod.fst
      = some .AskPerson ∧
    (some DMState.AskPerson ≠ some DMState.CheckPerson) := by
  decide

/-- C2 (amended): after recognising "banana" (not resolvable to a person)
in `ListenPerson` and receiving the listen-complete event, `person`
remains absent, `lastResult` records the raw result, and the machine
transitions directly back to `AskPerson`; `CheckPerson` is not entered. -/
theorem banana_direct_reprompt :
    runSteps .ListenPerson clearValues
        [.RECOGNISED [⟨"banana"⟩], .LISTEN_COMPLETE]
      = some (.AskPerson,
          { clearValues with lastResult := some [⟨"banana"⟩] }) ∧
    ({ clearValues with
        lastResult := some [⟨"banana"⟩] } : DMContext).person = none := by
  decide

/-- C3: whenever `CheckConfirmation` exits on speech completion (its
guards dereference `lastResult![0]`, so the last result must be present
and non-empty), all three confirmation branches move to `Greeting` and
the exit action `clearValues` resets every session field — `person`,
`day`, `yesno`, `time` and `lastResult` — to absent. -/
theorem checkConfirmation_exit_resets (ctx : DMContext)
    (h : (jsIndex0 ctx.lastResult).isSome) :
    step .CheckConfirmation ctx .SPEAK_COMPLETE
        = some (.Greeting, clearValues) ∧
    clearValues.person = none ∧ clearValues.day = none ∧
    clearValues.yesno = none ∧ clearValues.time = none ∧
    clearValues.lastResult = none := by
  obtain ⟨hyp, hh⟩ := Option.isSome_iff_exists.mp h
  refine ⟨?_, rfl, rfl, rfl, rfl, rfl⟩
  simp only [step, hh]
  split_ifs <;> rfl

/-- C3 (witness): the reset step at a concrete context holding a
recognised "yes". -/
theorem checkConfirmation_exit_resets_witness :
    step .CheckConfirmation ctxConfirmYes .SPEAK_COMPLETE
        = some (.Greeting, clearValues) ∧
    clearValues.person = none ∧ clearValues.day = none ∧
    clearValues.yesno = none ∧ clearValues.time = none ∧
    clearValues.lastResult = none :=
  checkConfirmation_exit_resets ctxConfirmYes (by decide)

/-- C4: on a no-input event, `ListenPerson`, `ListenDay` and `ListenTime`
clear `lastResult` and stay in place (the reprompt decision is left to
the following listen-complete event), while `ListenFullDay` and
`ListenConfirm` clear `lastResult` and transition immediately to
`AskFullDay`, respectively `ConfirmAppointment`. -/
theorem noinput_clears_lastResult (ctx : DMContext) :
    step .ListenPerson ctx .ASR_NOINPUT
        = some (.ListenPerson, { ctx with lastResult := none }) ∧
    step .ListenDay ctx .ASR_NOINPUT
        = some (.ListenDay, { ctx with lastResult := none }) ∧
    step .ListenTime ctx .ASR_NOINPUT
        = some (.ListenTime, { ctx with lastResult := none }) ∧
    step .ListenFullDay ctx .ASR_NOINPUT
        = some (.AskFullDay, { ctx with lastResult := none }) ∧
    step .ListenConfirm ctx .ASR_NOINPUT
        = some (.ConfirmAppointment, { ctx with lastResult := none }) :=
  ⟨rfl, rfl, rfl, rfl, rfl⟩

/-- C5: on speech completion, `CheckFullDay` moves to
`ConfirmAppointment` when the whole-day flag is `true`, to `AskTime` when
it is `false`, and back to `AskFullDay` when it is still unset. -/
theorem checkFullDay_branching (ctx : DMContext) :
    (ctx.yesno = some true →
      step .CheckFullDay ctx .SPEAK_COMPLETE
        = some (.ConfirmAppointment, ctx)) ∧
    (ctx.yesno = some false →
      step .CheckFullDay ctx .SPEAK_COMPLETE = some (.AskTime, ctx)) ∧
    (ctx.yesno = none →
      step .CheckFullDay ctx .SPEAK_COMPLETE = some (.AskFullDay, ctx)) := by
  refine ⟨fun h => ?_, fun h => ?_, fun h => ?_⟩ <;> simp [step, h]

/-- C5 (witness): the three branches at concrete contexts. -/
theorem checkFullDay_branching_witness :
    step .CheckFullDay ctxYes .SPEAK_COMPLETE
        = some (.ConfirmAppointment, ctxYes) ∧
    step .CheckFullDay ctxNoTime .SPEAK_COMPLETE
        = some (.AskTime, ctxNoTime) ∧
    step .CheckFullDay clearValues .SPEAK_COMPLETE
        = some (.AskFullDay, clearValues) :=
  ⟨(checkFullDay_branching ctxYes).1 rfl,
   (checkFullDay_branching ctxNoTime).2.1 rfl,
   (checkFullDay_branching clearValues).2.2 rfl⟩

/-- C7: the happy-path event sequence — recognitions "Vlad", "Monday",
"no", "14", "yes", each followed by its listen-completion, with the
intervening speech completions — drives the machine from `Greeting` into
`CheckConfirmation` with the session fully filled; there it speaks
"Your appointment has been created!" and one further speech completion
returns it to `Greeting` with the session reset. -/
theorem happy_path_run :
    runSteps .Greeting clearValues happyEvents
        = some (.CheckConfirmation, happyCtx) ∧
    entryUtterance .CheckConfirmation happyCtx
        = some (some "Your appointment has been created!") ∧
    runSteps .Greeting clearValues (happyEvents ++ [.SPEAK_COMPLETE])
        = some (.Greeting, clearValues) := by
  decide


lemma traceStates_cons (s : DMState) (ctx : DMContext) (es : List DMEvent) :
    ∃ t, traceStates s ctx es = s :: t := by
  cases es with
  | nil => exact ⟨[], rfl⟩
  | cons e es =>
      cases h : step s ctx e with
      | none => exact ⟨[], by simp [traceStates, h]⟩
      | some p => exact ⟨traceStates p.1 p.2 es, by simp [traceStates, h]⟩

lemma traceStates_step {s s2 : DMState} {ctx c2 : DMContext} {e : DMEvent}
    (es : List DMEvent) (h : step s ctx e = some (s2, c2)) :
    traceStates s ctx (e :: es) = s :: traceStates s2 c2 es := by
  simp [traceStates, h]

lemma traceStates_crash {s : DMState} {ctx : DMContext} {e : DMEvent}
    (es : List DMEvent) (h : step s ctx e = none) :
    traceStates s ctx (e :: es) = [s] := by
  simp [traceStates, h]

lemma takeWhile_confirm_cons (s : DMState) (t : List DMState)
    (hs : (s != DMState.ConfirmAppointment) = true) :
    (s :: t).takeWhile (fun q => q != DMState.ConfirmAppointment)
      = s :: t.takeWhile (fun q => q != DMState.ConfirmAppointment) := by
  simp [List.takeWhile_cons, hs]

lemma timePhase (es : List DMEvent) :
    ∀ ctx s,
    (s = DMState.AskTime ∨ s = DMState.ListenTime ∨ s = DMState.CheckTime) →
    DMState.ConfirmAppointment ∈ traceStates s ctx es →
    DMState.CheckTime ∈ (traceStates s ctx es).takeWhile
        (fun q => q != DMState.ConfirmAppointment) ∧
    (s = DMState.AskTime →
      DMState.ListenTime ∈ (traceStates s ctx es).takeWhile
        (fun q => q != DMState.ConfirmAppointment)) := by
  induction es with
  | nil =>
      intro ctx s hs hmem
      rcases hs with h | h | h <;> subst h <;> simp [traceStates] at hmem
  | cons e es ih =>
      intro ctx s hs hmem
      rcases hs with h | h | h
      · -- s = AskTime
        subst h
        have askStay : ∀ c2 : DMContext,
            step DMState.AskTime ctx e = some (DMState.AskTime, c2) →
            DMState.ConfirmAppointment ∈
                traceStates DMState.AskTime ctx (e :: es) →
            DMState.CheckTime ∈
              (traceStates DMState.AskTime ctx (e :: es)).takeWhile
                (fun q => q != DMState.ConfirmAppointment) ∧
            (DMState.AskTime = DMState.AskTime →
              DMState.ListenTime ∈
                (traceStates DMState.AskTime ctx (e :: es)).takeWhile
                  (fun q => q != DMState.ConfirmAppointment)) := by
          intro c2 hstep hm
          rw [traceStates_step es hstep] at hm ⊢
          rcases List.mem_cons.mp hm with h | hm
          · exact absurd h.symm (by decide)
          · obtain ⟨hC, hL⟩ := ih c2 DMState.AskTime (Or.inl rfl) hm
            rw [takeWhile_confirm_cons _ _ (by decide)]
            exact ⟨List.mem_cons_of_mem _ hC,
              fun _ => List.mem_cons_of_mem _ (hL rfl)⟩
        cases e
        case SPEAK_COMPLETE =>
            have hstep : step DMState.AskTime ctx DMEvent.SPEAK_COMPLETE
                = some (DMState.ListenTime, ctx) := rfl
            rw [traceStates_step es hstep] at hmem ⊢
            rcases List.mem_cons.mp hmem with h | hmem
            · exact absurd h.symm (by decide)
            · obtain ⟨hC, -⟩ :=
                ih ctx DMState.ListenTime (Or.inr (Or.inl rfl)) hmem
              rw [takeWhile_confirm_cons _ _ (by decide)]
              obtain ⟨t, ht⟩ := traceStates_cons DMState.ListenTime ctx es
              refine ⟨List.mem_cons_of_mem _ hC, fun _ => ?_⟩
              rw [ht, takeWhile_confirm_cons _ _ (by decide)]
              exact List.mem_cons_of_mem _ (List.mem_cons_self _ _)
        case ASRTTS_READY => exact askStay ctx rfl hmem
        case CLICK => exact askStay ctx rfl hmem
        case LISTEN_COMPLETE => exact askStay ctx rfl hmem
        case ASR_NOINPUT => exact askStay ctx rfl hmem
        case RECOGNISED v => exact askStay ctx rfl hmem
      · -- s = ListenTime
        subst h
        have listenStay : ∀ c2 : DMContext,
            step DMState.ListenTime ctx e = some (DMState.ListenTime, c2) →
            DMState.ConfirmAppointment ∈
                traceStates DMState.ListenTime ctx (e :: es) →
            DMState.CheckTime ∈
              (traceStates DMState.ListenTime ctx (e :: es)).takeWhile
                (fun q => q != DMState.ConfirmAppointment) ∧
            (DMState.ListenTime = DMState.AskTime →
              DMState.ListenTime ∈
                (traceStates DMState.ListenTime ctx (e :: es)).takeWhile
                  (fun q => q != DMState.ConfirmAppointment)) := by
          intro c2 hstep hm
          rw [traceStates_step es hstep] at hm ⊢
          rcases List.mem_cons.mp hm with h | hm
          · exact absurd h.symm (by decide)
          · obtain ⟨hC, -⟩ :=
              ih c2 DMState.ListenTime (Or.inr (Or.inl rfl)) hm
            rw [takeWhile_confirm_cons _ _ (by decide)]
            exact ⟨List.mem_cons_of_mem _ hC, fun h => absurd h (by decide)⟩
        cases e
        case LISTEN_COMPLETE =>
            have hstep : step DMState.ListenTime ctx DMEvent.LISTEN_COMPLETE
                = some (DMState.CheckTime, ctx) := rfl
            rw [traceStates_step es hstep]
            rw [takeWhile_confirm_cons _ _ (by decide)]
            obtain ⟨t, ht⟩ := traceStates_cons DMState.CheckTime ctx es
            refine ⟨?_, fun h => absurd h (by decide)⟩
            rw [ht, takeWhile_confirm_cons _ _ (by decide)]
            exact List.mem_cons_of_mem _ (List.mem_cons_self _ _)
        case RECOGNISED v =>
            cases v with
            | nil =>
                rw [traceStates_crash es (rfl :
                    step DMState.ListenTime ctx (DMEvent.RECOGNISED [])
                      = none)] at hmem
                simp at hmem
            | cons h0 rest =>
                obtain ⟨c2, hstep⟩ : ∃ c2,
                    step DMState.ListenTime ctx
                        (DMEvent.RECOGNISED (h0 :: rest))
                      = some (DMState.ListenTime, c2) := by
                  by_cases hb : jsTruthyStr (getTime h0.utterance)
                  · refine ⟨{ ctx with time := getTime h0.utterance, lastResult := some (h0 :: rest) }, ?_⟩
                    simp [step, hb]
                  · refine ⟨{ ctx with lastResult := some (h0 :: rest) }, ?_⟩
                    simp [step, hb]
                exact listenStay c2 hstep hmem
        case ASRTTS_READY => exact listenStay ctx rfl hmem
        case CLICK => exact listenStay ctx rfl hmem
        case SPEAK_COMPLETE => exact listenStay ctx rfl hmem
        case ASR_NOINPUT => exact listenStay _ rfl hmem
      · -- s = CheckTime
        subst h
        obtain ⟨t, ht⟩ := traceStates_cons DMState.CheckTime ctx (e :: es)
        rw [ht, takeWhile_confirm_cons _ _ (by decide)]
        exact ⟨List.mem_cons_self _ _, fun h => absurd h (by decide)⟩

/-- C6: when `CheckFullDay` exits on speech completion with the whole-day
flag `true`, no state among `AskTime`, `ListenTime`, `CheckTime` is
visited before `ConfirmAppointment` is reached (the very next state);
when it exits with the flag `false`, any continuation of the run that
reaches `ConfirmAppointment` visits `AskTime`, `ListenTime` and
`CheckTime` before the first visit of `ConfirmAppointment`. -/
theorem wholeDay_branch_exclusivity (ctx : DMContext) (es : List DMEvent) :
    (ctx.yesno = some true →
      DMState.AskTime ∉ (traceStates DMState.CheckFullDay ctx
          (DMEvent.SPEAK_COMPLETE :: es)).takeWhile
          (fun q => q != DMState.ConfirmAppointment) ∧
      DMState.ListenTime ∉ (traceStates DMState.CheckFullDay ctx
          (DMEvent.SPEAK_COMPLETE :: es)).takeWhile
          (fun q => q != DMState.ConfirmAppointment) ∧
      DMState.CheckTime ∉ (traceStates DMState.CheckFullDay ctx
          (DMEvent.SPEAK_COMPLETE :: es)).takeWhile
          (fun q => q != DMState.ConfirmAppointment)) ∧
    (ctx.yesno = some false →
      DMState.ConfirmAppointment ∈ traceStates DMState.CheckFullDay ctx
          (DMEvent.SPEAK_COMPLETE :: es) →
      DMState.AskTime ∈ (traceStates DMState.CheckFullDay ctx
          (DMEvent.SPEAK_COMPLETE :: es)).takeWhile
          (fun q => q != DMState.ConfirmAppointment) ∧
      DMState.ListenTime ∈ (traceStates DMState.CheckFullDay ctx
          (DMEvent.SPEAK_COMPLETE :: es)).takeWhile
          (fun q => q != DMState.ConfirmAppointment) ∧
      DMState.CheckTime ∈ (traceStates DMState.CheckFullDay ctx
          (DMEvent.SPEAK_COMPLETE :: es)).takeWhile
          (fun q => q != DMState.ConfirmAppointment)) := by
  constructor
  · intro h
    have hstep : step DMState.CheckFullDay ctx DMEvent.SPEAK_COMPLETE
        = some (DMState.ConfirmAppointment, ctx) := by simp [step, h]
    rw [traceStates_step es hstep, takeWhile_confirm_cons _ _ (by decide)]
    obtain ⟨t, ht⟩ :=
      traceStates_cons DMState.ConfirmAppointment ctx es
    rw [ht]
    have hnil : (DMState.ConfirmAppointment :: t).takeWhile
        (fun q => q != DMState.ConfirmAppointment) = [] := by
      simp [List.takeWhile_cons]
    rw [hnil]
    refine ⟨?_, ?_, ?_⟩ <;> decide
  · intro h hmem
    have hstep : step DMState.CheckFullDay ctx DMEvent.SPEAK_COMPLETE
        = some (DMState.AskTime, ctx) := by simp [step, h]
    rw [traceStates_step es hstep] at hmem ⊢
    rcases List.mem_cons.mp hmem with hx | hmem
    · exact absurd hx.symm (by decide)
    obtain ⟨hC, hL⟩ := timePhase es ctx DMState.AskTime (Or.inl rfl) hmem
    rw [takeWhile_confirm_cons _ _ (by decide)]
    obtain ⟨t, ht⟩ := traceStates_cons DMState.AskTime ctx es
    refine ⟨?_, List.mem_cons_of_mem _ (hL rfl),
      List.mem_cons_of_mem _ hC⟩
    rw [ht, takeWhile_confirm_cons _ _ (by decide)]
    exact List.mem_cons_of_mem _ (List.mem_cons_self _ _)

/-- C6 (witness): the true branch at a whole-day context with no
continuation, and the false branch on a concrete run that reaches
`ConfirmAppointment`. -/
theorem wholeDay_branch_exclusivity_witness :
    DMState.AskTime ∉ (traceStates DMState.CheckFullDay ctxYes
        [DMEvent.SPEAK_COMPLETE]).takeWhile
        (fun q => q != DMState.ConfirmAppointment) ∧
    DMState.CheckTime ∈ (traceStates DMState.CheckFullDay ctxNoTime
        [DMEvent.SPEAK_COMPLETE, DMEvent.SPEAK_COMPLETE,
         DMEvent.LISTEN_COMPLETE, DMEvent.SPEAK_COMPLETE]).takeWhile
        (fun q => q != DMState.ConfirmAppointment) :=
  ⟨((wholeDay_branch_exclusivity ctxYes []).1 rfl).1,
   ((wholeDay_branch_exclusivity ctxNoTime
      [DMEvent.SPEAK_COMPLETE, DMEvent.LISTEN_COMPLETE,
       DMEvent.SPEAK_COMPLETE]).2 rfl (by decide)).2.2⟩


lemma isSome_of_jsTruthyStr {o : Option String} (h : jsTruthyStr o = true) :
    o.isSome := by
  cases o <;> simp [jsTruthyStr] at h ⊢

set_option maxHeartbeats 3200000 in
/-- C8: a step changes the four slot fields of the session only in the
documented ways: each of `person`, `day`, `yesno`, `time` is unchanged
unless the machine is in the Listen state collecting that slot (where a
recognition event may overwrite it — and then only with a successful
resolution of that same slot type) or the step is the full reset on
exiting `CheckConfirmation`. -/
theorem slot_frame_property (s : DMState) (ctx : DMContext) (e : DMEvent)
    (s2 : DMState) (ctx2 : DMContext)
    (hstep : step s ctx e = some (s2, ctx2)) :
    ((s ≠ DMState.ListenPerson →
        ¬(s = DMState.CheckConfirmation ∧ e = DMEvent.SPEAK_COMPLETE) →
        ctx2.person = ctx.person) ∧
     (s = DMState.ListenPerson →
        ctx2.person = ctx.person ∨
        (∃ v h0, e = DMEvent.RECOGNISED v ∧ v.head? = some h0 ∧
          ctx2.person = getPerson h0.utterance ∧ ctx2.person.isSome))) ∧
    ((s ≠ DMState.ListenDay →
        ¬(s = DMState.CheckConfirmation ∧ e = DMEvent.SPEAK_COMPLETE) →
        ctx2.day = ctx.day) ∧
     (s = DMState.ListenDay →
        ctx2.day = ctx.day ∨
        (∃ v h0, e = DMEvent.RECOGNISED v ∧ v.head? = some h0 ∧
          ctx2.day = getNumber h0.utterance ∧ ctx2.day.isSome))) ∧
    ((s ≠ DMState.ListenFullDay →
        ¬(s = DMState.CheckConfirmation ∧ e = DMEvent.SPEAK_COMPLETE) →
        ctx2.yesno = ctx.yesno) ∧
     (s = DMState.ListenFullDay →
        ctx2.yesno = ctx.yesno ∨
        (∃ v h0, e = DMEvent.RECOGNISED v ∧ v.head? = some h0 ∧
          ctx2.yesno = getConfirm h0.utterance ∧ ctx2.yesno.isSome))) ∧
    ((s ≠ DMState.ListenTime →
        ¬(s = DMState.CheckConfirmation ∧ e = DMEvent.SPEAK_COMPLETE) →
        ctx2.time = ctx.time) ∧
     (s = DMState.ListenTime →
        ctx2.time = ctx.time ∨
        (∃ v h0, e = DMEvent.RECOGNISED v ∧ v.head? = some h0 ∧
          ctx2.time = getTime h0.utterance ∧ ctx2.time.isSome))) ∧
    (s = DMState.CheckConfirmation → e = DMEvent.SPEAK_COMPLETE →
        ctx2 = clearValues) := by
  rcases e with _ | _ | _ | _ | _ | v
  · -- ASRTTS_READY
    cases s <;>
      ( simp only [step] at hstep
        (try split_ifs at hstep) <;>
          ( simp only [Option.some.injEq, Prod.mk.injEq] at hstep
            obtain ⟨rfl, rfl⟩ := hstep
            simp [clearValues] ) )
  · -- CLICK
    cases s <;>
      ( simp only [step] at hstep
        (try split_ifs at hstep) <;>
          ( simp only [Option.some.injEq, Prod.mk.injEq] at hstep
            obtain ⟨rfl, rfl⟩ := hstep
            simp [clearValues] ) )
  · -- SPEAK_COMPLETE
    cases s
    case CheckConfirmation =>
      rcases hj : jsIndex0 ctx.lastResult with _ | h0
      · simp [step, hj] at hstep
      · simp only [step, hj] at hstep
        split_ifs at hstep <;>
          ( simp only [Option.some.injEq, Prod.mk.injEq] at hstep
            obtain ⟨rfl, rfl⟩ := hstep
            simp [clearValues] )
    all_goals
      ( simp only [step] at hstep
        (try split_ifs at hstep) <;>
          ( simp only [Option.some.injEq, Prod.mk.injEq] at hstep
            obtain ⟨rfl, rfl⟩ := hstep
            simp [clearValues] ) )
  · -- LISTEN_COMPLETE
    cases s <;>
      ( simp only [step] at hstep
        (try split_ifs at hstep) <;>
          ( simp only [Option.some.injEq, Prod.mk.injEq] at hstep
            obtain ⟨rfl, rfl⟩ := hstep
            simp [clearValues] ) )
  · -- ASR_NOINPUT
    cases s <;>
      ( simp only [step] at hstep
        (try split_ifs at hstep) <;>
          ( simp only [Option.some.injEq, Prod.mk.injEq] at hstep
            obtain ⟨rfl, rfl⟩ := hstep
            simp [clearValues] ) )
  · -- RECOGNISED v
    rcases v with _ | ⟨h0, rest⟩
    · cases s
      case ListenPerson => simp [step] at hstep
      case ListenDay => simp [step] at hstep
      case ListenFullDay => simp [step] at hstep
      case ListenTime => simp [step] at hstep
      case ListenConfirm => simp [step] at hstep
      all_goals
        ( simp only [step] at hstep
          simp only [Option.some.injEq, Prod.mk.injEq] at hstep
          obtain ⟨rfl, rfl⟩ := hstep
          simp [clearValues] )
    · cases s
      case ListenPerson =>
        simp only [step, List.head?_cons] at hstep
        split_ifs at hstep with hb
        · simp only [Option.some.injEq, Prod.mk.injEq] at hstep
          obtain ⟨rfl, rfl⟩ := hstep
          exact ⟨⟨by simp, fun _ => Or.inr ⟨h0 :: rest, h0, rfl, rfl, rfl,
              isSome_of_jsTruthyStr hb⟩⟩,
            ⟨by simp, by simp⟩, ⟨by simp, by simp⟩, ⟨by simp, by simp⟩,
            by simp⟩
        · simp only [Option.some.injEq, Prod.mk.injEq] at hstep
          obtain ⟨rfl, rfl⟩ := hstep
          simp [clearValues]
      case ListenDay =>
        simp only [step, List.head?_cons] at hstep
        split_ifs at hstep with hb
        · simp only [Option.some.injEq, Prod.mk.injEq] at hstep
          obtain ⟨rfl, rfl⟩ := hstep
          exact ⟨⟨by simp, by simp⟩,
            ⟨by simp, fun _ => Or.inr ⟨h0 :: rest, h0, rfl, rfl, rfl,
              isSome_of_jsTruthyStr hb⟩⟩,
            ⟨by simp, by simp⟩, ⟨by simp, by simp⟩, by simp⟩
        · simp only [Option.some.injEq, Prod.mk.injEq] at hstep
          obtain ⟨rfl, rfl⟩ := hstep
          simp [clearValues]
      case ListenFullDay =>
        rcases hb : getConfirm h0.utterance with _ | b
        · simp only [step, List.head?_cons, hb] at hstep
          simp only [Option.some.injEq, Prod.mk.injEq] at hstep
          obtain ⟨rfl, rfl⟩ := hstep
          simp [clearValues]
        · simp only [step, List.head?_cons, hb] at hstep
          simp only [Option.some.injEq, Prod.mk.injEq] at hstep
          obtain ⟨rfl, rfl⟩ := hstep
          exact ⟨⟨by simp, by simp⟩, ⟨by simp, by simp⟩,
            ⟨by simp, fun _ => Or.inr ⟨h0 :: rest, h0, rfl, rfl, hb.symm,
              rfl⟩⟩,
            ⟨by simp, by simp⟩, by simp⟩
      case ListenTime =>
        simp only [step, List.head?_cons] at hstep
        split_ifs at hstep with hb
        · simp only [Option.some.injEq, Prod.mk.injEq] at hstep
          obtain ⟨rfl, rfl⟩ := hstep
          exact ⟨⟨by simp, by simp⟩, ⟨by simp, by simp⟩,
            ⟨by simp, by simp⟩,
            ⟨by simp, fun _ => Or.inr ⟨h0 :: rest, h0, rfl, rfl, rfl,
              isSome_of_jsTruthyStr hb⟩⟩,
            by simp⟩
        · simp only [Option.some.injEq, Prod.mk.injEq] at hstep
          obtain ⟨rfl, rfl⟩ := hstep
          simp [clearValues]
      case ListenConfirm =>
        rcases hb : getConfirm h0.utterance with _ | b <;>
          simp only [step, List.head?_cons, hb, Option.some.injEq,
            Prod.mk.injEq] at hstep <;>
          ( obtain ⟨rfl, rfl⟩ := hstep
            simp [clearValues] )
      all_goals
        ( simp only [step] at hstep
          simp only [Option.some.injEq, Prod.mk.injEq] at hstep
          obtain ⟨rfl, rfl⟩ := hstep
          simp [clearValues] )

/-- C8 (witness): recognising "vlad" in `ListenPerson` from the empty
context leaves the day, time and whole-day fields unchanged. -/
theorem slot_frame_property_witness :
    vladCtx.day = clearValues.day ∧ vladCtx.time = clearValues.time ∧
    vladCtx.yesno = clearValues.yesno := by
  have h := slot_frame_property DMState.ListenPerson clearValues
      (DMEvent.RECOGNISED [⟨"vlad"⟩]) DMState.ListenPerson vladCtx
      (by decide)
  exact ⟨h.2.1.1 (by decide) (by decide),
    h.2.2.2.1.1 (by decide) (by decide),
    h.2.2.1.1 (by decide) (by decide)⟩


lemma feedTurn_inv (c c2 : DMState × DMContext) (t : TurnInput)
    (hwf : turnWF t = true)
    (hinv : c.1 = DMState.CheckConfirmation →
      ∃ h rest, c.2.lastResult = some (h :: rest))
    (hft : feedTurn c t = some c2) :
    c2.1 = DMState.CheckConfirmation →
      ∃ h rest, c2.2.lastResult = some (h :: rest) := by
  obtain ⟨s, ctx⟩ := c
  cases t
  case ready =>
    cases s <;>
      ( simp only [feedTurn, step] at hft
        (try split_ifs at hft) <;>
          ( simp only [Option.some.injEq] at hft
            subst hft
            first
            | exact hinv
            | (intro h; simp at h) ) )
  case click =>
    cases s <;>
      ( simp only [feedTurn, step] at hft
        (try split_ifs at hft) <;>
          ( simp only [Option.some.injEq] at hft
            subst hft
            first
            | exact hinv
            | (intro h; simp at h) ) )
  case speakDone =>
    cases s
    case CheckConfirmation =>
      rcases hj : jsIndex0 ctx.lastResult with _ | h0
      · simp [feedTurn, step, hj] at hft
      · simp only [feedTurn, step, hj] at hft
        split_ifs at hft <;>
          ( simp only [Option.some.injEq] at hft
            subst hft
            intro h
            simp at h )
    all_goals
      ( simp only [feedTurn, step] at hft
        (try split_ifs at hft) <;>
          ( simp only [Option.some.injEq] at hft
            subst hft
            first
            | exact hinv
            | (intro h; simp at h) ) )
  case heard v =>
    rcases v with _ | ⟨h0, rest⟩
    · simp [turnWF] at hwf
    · rcases hb : getConfirm h0.utterance with _ | b <;>
      cases s <;>
        ( simp only [feedTurn, step, List.head?_cons, hb] at hft
          (try split_ifs at hft) <;>
            ( simp only [Option.bind, step] at hft
              (try split_ifs at hft) <;>
                ( simp only [Option.some.injEq] at hft
                  subst hft
                  first
                  | exact hinv
                  | exact fun _ => ⟨_, _, rfl⟩
                  | (intro h; simp at h) ) ) )
  case noInput =>
    cases s <;>
      ( simp only [feedTurn, step] at hft
        (try split_ifs at hft) <;>
          ( simp only [Option.bind, step] at hft
            (try split_ifs at hft) <;>
              ( simp only [Option.some.injEq] at hft
                subst hft
                first
                | exact hinv
                | (intro h; simp at h) ) ) )

lemma runTurns_inv (ts : List TurnInput) :
    ∀ c c2 : DMState × DMContext, inputsWF ts = true →
    (c.1 = DMState.CheckConfirmation →
      ∃ h rest, c.2.lastResult = some (h :: rest)) →
    runTurns c ts = some c2 →
    (c2.1 = DMState.CheckConfirmation →
      ∃ h rest, c2.2.lastResult = some (h :: rest)) := by
  induction ts with
  | nil =>
      intro c c2 _ hinv hrun
      simp only [runTurns, Option.some.injEq] at hrun
      subst hrun
      exact hinv
  | cons t ts ih =>
      intro c c2 hwf hinv hrun
      simp only [inputsWF, List.all_cons, Bool.and_eq_true] at hwf
      simp only [runTurns] at hrun
      rcases hft : feedTurn c t with _ | c3
      · rw [hft] at hrun
        exact absurd hrun (by simp)
      · rw [hft] at hrun
        exact ih c3 c2 hwf.2 (feedTurn_inv c c3 t hwf.1 hinv hft) hrun

/-- C10: under the adapter event contract — each listen turn delivers
exactly one of a non-empty `RECOGNISED` or `ASR_NOINPUT`, followed by
`LISTEN_COMPLETE` — every run from the initial configuration that is in
`CheckConfirmation` holds a present, non-empty `lastResult`, so the entry
action and the speech-completion guards of `CheckConfirmation`, which
dereference `lastResult![0]`, never read an absent value. -/
theorem checkConfirmation_lastResult_nonempty (ts : List TurnInput)
    (hwf : inputsWF ts = true) (c2 : DMState × DMContext)
    (hrun : runTurns (DMState.Prepare, clearValues) ts = some c2)
    (hstate : c2.1 = DMState.CheckConfirmation) :
    (∃ h rest, c2.2.lastResult = some (h :: rest)) ∧
    (entryUtterance DMState.CheckConfirmation c2.2).isSome ∧
    (step DMState.CheckConfirmation c2.2 DMEvent.SPEAK_COMPLETE).isSome := by
  have hne := runTurns_inv ts (DMState.Prepare, clearValues) c2 hwf
      (by simp) hrun hstate
  obtain ⟨h0, rest, hlr⟩ := hne
  refine ⟨⟨h0, rest, hlr⟩, ?_, ?_⟩
  · simp only [entryUtterance, hlr, jsIndex0]
    rcases getConfirm h0.utterance with _ | b
    · simp
    · cases b <;> simp
  · simp only [step, hlr, jsIndex0]
    split_ifs <;> simp

/-- C10 (witness): a concrete well-formed adapter script reaching
`CheckConfirmation`, whose `lastResult` holds the recognised "yes". -/
theorem checkConfirmation_lastResult_nonempty_witness :
    (∃ h rest, ((DMState.CheckConfirmation, confirmCtx) :
        DMState × DMContext).2.lastResult = some (h :: rest)) ∧
    (entryUtterance DMState.CheckConfirmation confirmCtx).isSome ∧
    (step DMState.CheckConfirmation confirmCtx
        DMEvent.SPEAK_COMPLETE).isSome :=
  checkConfirmation_lastResult_nonempty confirmScript (by decide)
    (DMState.CheckConfirmation, confirmCtx) (by decide) rfl
